import Mathlib

/-!
Shallow embedding of the serac nonlinear solid mechanics core.

Sources embedded here:
* `src/src/solvers/nonlinear_solid_solver.cpp` — the `NonlinearSolidSolver`
  facade (`CompleteSetup`, `AdvanceTimestep`), the functional material models
  (`LinearIsotropic`, `NeoHookean`, `J2`) and the dynamic thermal operator's
  Jacobian staleness check in `ThermalConductionFunctional::completeSetup`.

Machine doubles are embedded as exact reals (`ℝ`); timestep sizes, which are
only ever compared for equality by the code under study, are embedded as `ℚ`
so the step bookkeeping stays decidable.  Tensors are `Matrix (Fin n) (Fin n) ℝ`.
-/

namespace Serac

/-- The type of 3x3 tensors used by the `J2` material (`tensor<double, 3, 3>`). -/
abbrev M3 : Type := Matrix (Fin 3) (Fin 3) ℝ

/-- serac `sym(A) = 0.5 * (transpose(A) + A)`, as written in
`LinearIsotropic::operator()` and used by `J2::operator()`. -/
noncomputable def sym {n : ℕ} (A : Matrix (Fin n) (Fin n) ℝ) : Matrix (Fin n) (Fin n) ℝ :=
  ((1 : ℝ) / 2) • (A.transpose + A)

/-- serac `dev(A) = A - (tr(A)/3) * I` for the 3-dimensional tensors of `J2`. -/
noncomputable def dev (A : M3) : M3 :=
  A - (Matrix.trace A / 3) • (1 : M3)

/-- Sum of squared entries of a 3x3 tensor (the square of the Frobenius norm
computed by serac `norm`). -/
noncomputable def normSq (A : M3) : ℝ := ∑ i, ∑ j, A i j ^ 2

/-- serac `norm(A)`: the Frobenius norm of a 3x3 tensor. -/
noncomputable def tnorm (A : M3) : ℝ := Real.sqrt (normSq A)

/-- serac `normalize(A) = A / norm(A)` (componentwise division by the norm). -/
noncomputable def tnormalize (A : M3) : M3 := (tnorm A)⁻¹ • A

/-- Material parameters of `serac::solid_mechanics::LinearIsotropic`. -/
structure LinearIsotropic where
  density : ℝ
  K : ℝ
  G : ℝ

/-- `LinearIsotropic::operator()`:
`lambda * tr(epsilon) * I + 2 * G * epsilon` with
`lambda = K - (2/3) G` and `epsilon = 0.5 * (transpose(du_dX) + du_dX)`.
The material is stateless (`State = Empty`). -/
noncomputable def LinearIsotropic.apply {n : ℕ} (m : LinearIsotropic)
    (du_dX : Matrix (Fin n) (Fin n) ℝ) : Matrix (Fin n) (Fin n) ℝ :=
  let lambda := m.K - (2 / 3) * m.G
  let epsilon := sym du_dX
  (lambda * Matrix.trace epsilon) • (1 : Matrix (Fin n) (Fin n) ℝ) + (2 * m.G) • epsilon

/-- Material parameters of `serac::solid_mechanics::NeoHookean`. -/
structure NeoHookean where
  density : ℝ
  K : ℝ
  G : ℝ

/-- `NeoHookean::operator()`:
`lambda * log(det(I + du_dX)) * I + G * B_minus_I` with
`B_minus_I = du_dX * transpose(du_dX) + transpose(du_dX) + du_dX`.
The material is stateless (`State = Empty`). -/
noncomputable def NeoHookean.apply {n : ℕ} (m : NeoHookean)
    (du_dX : Matrix (Fin n) (Fin n) ℝ) : Matrix (Fin n) (Fin n) ℝ :=
  let lambda := m.K - (2 / 3) * m.G
  let B_minus_I := du_dX * du_dX.transpose + du_dX.transpose + du_dX
  (lambda * Real.log (Matrix.det (1 + du_dX))) • (1 : Matrix (Fin n) (Fin n) ℝ)
    + m.G • B_minus_I

/-- Material parameters of the `J2` plasticity model (3D only). -/
structure J2 where
  E : ℝ
  nu : ℝ
  Hi : ℝ
  Hk : ℝ
  sigma_y : ℝ
  density : ℝ

/-- `J2::State`: the per-quadrature-point internal variables. -/
structure J2.State where
  beta : M3
  plastic_strain : M3
  accumulated_plastic_strain : ℝ

/-- Bulk modulus derived inside `J2::operator()`: `K = E / (3 (1 - 2 nu))`. -/
noncomputable def J2.Kmod (m : J2) : ℝ := m.E / (3 * (1 - 2 * m.nu))

/-- Shear modulus derived inside `J2::operator()`: `G = 0.5 E / (1 + nu)`. -/
noncomputable def J2.Gmod (m : J2) : ℝ := (1 / 2) * m.E / (1 + m.nu)

/-- The elastic trial deviatoric stress `s = 2 G dev(sym(du_dX) - plastic_strain)`
of `J2::operator()` (step (i), elastic predictor). -/
noncomputable def J2.trialS (m : J2) (state : J2.State) (du_dX : M3) : M3 :=
  (2 * m.Gmod) • dev (sym du_dX - state.plastic_strain)

/-- The volumetric pressure `p = K tr(sym(du_dX) - plastic_strain)` of
`J2::operator()` (step (i), elastic predictor). -/
noncomputable def J2.trialP (m : J2) (state : J2.State) (du_dX : M3) : ℝ :=
  m.Kmod * Matrix.trace (sym du_dX - state.plastic_strain)

/-- The relative stress `eta = s - beta` of `J2::operator()`. -/
noncomputable def J2.eta (m : J2) (state : J2.State) (du_dX : M3) : M3 :=
  m.trialS state du_dX - state.beta

/-- The yield function
`phi = sqrt(3/2) * norm(eta) - (sigma_y + Hi * accumulated_plastic_strain)`
of `J2::operator()` (step (ii), admissibility). -/
noncomputable def J2.phi (m : J2) (state : J2.State) (du_dX : M3) : ℝ :=
  Real.sqrt (3 / 2) * tnorm (m.eta state du_dX)
    - (m.sigma_y + m.Hi * state.accumulated_plastic_strain)

/-- `J2::operator()`: returns the updated internal state together with the
stress.  When `phi > 0` the closed-form radial return mapping of box 7.5 of
"Computational Methods for Plasticity" is applied; otherwise the step is
elastic and the state is returned untouched. -/
noncomputable def J2.apply (m : J2) (state : J2.State) (du_dX : M3) : J2.State × M3 :=
  let p := m.trialP state du_dX
  let s := m.trialS state du_dX
  if 0 < m.phi state du_dX then
    let plastic_strain_inc := m.phi state du_dX / (3 * m.Gmod + m.Hk + m.Hi)
    let etaN := tnormalize (m.eta state du_dX)
    ({ beta := state.beta + (Real.sqrt (2 / 3) * m.Hk * plastic_strain_inc) • etaN,
       plastic_strain :=
         state.plastic_strain + (Real.sqrt (3 / 2) * plastic_strain_inc) • etaN,
       accumulated_plastic_strain :=
         state.accumulated_plastic_strain + plastic_strain_inc },
     (s - (Real.sqrt 6 * m.Gmod * plastic_strain_inc) • etaN) + p • (1 : M3))
  else
    (state, s + p • (1 : M3))

/-- The internal state left by the plastic branch of `J2::operator()` (the
three `state.* +=`/`state.beta =` updates of the return mapping, lines
(iii)): spelled out so evaluations can be chained. -/
noncomputable def J2.step1State (m : J2) (state : J2.State) (du_dX : M3) : J2.State :=
  { beta := state.beta
      + (Real.sqrt (2 / 3) * m.Hk
          * (m.phi state du_dX / (3 * m.Gmod + m.Hk + m.Hi)))
        • tnormalize (m.eta state du_dX)
    plastic_strain := state.plastic_strain
      + (Real.sqrt (3 / 2) * (m.phi state du_dX / (3 * m.Gmod + m.Hk + m.Hi)))
        • tnormalize (m.eta state du_dX)
    accumulated_plastic_strain := state.accumulated_plastic_strain
      + m.phi state du_dX / (3 * m.Gmod + m.Hk + m.Hi) }

/-- The stress returned by the plastic branch of `J2::operator()`. -/
noncomputable def J2.step1Stress (m : J2) (state : J2.State) (du_dX : M3) : M3 :=
  (m.trialS state du_dX
      - (Real.sqrt 6 * m.Gmod * (m.phi state du_dX / (3 * m.Gmod + m.Hk + m.Hi)))
        • tnormalize (m.eta state du_dX))
    + m.trialP state du_dX • (1 : M3)

/-! ### Dynamic-operator Jacobian bookkeeping

From the dynamic branch of `ThermalConductionFunctional::completeSetup`: the
Jacobian callback reassembles the mass/stiffness pair exactly when
`dt_ != previous_dt_`, and the callback itself never writes `previous_dt_`.
The residual callback does not touch `previous_dt_` either, so across all
Jacobian requests of one Newton solve `previous_dt_` is constant. -/

/-- Reassembly bookkeeping for the dynamic operator: the recorded previous
timestep size and the running count of mass/stiffness reassemblies. -/
structure DynJacobianState where
  prev_dt : ℚ
  assemblies : ℕ
deriving DecidableEq

/-- One invocation of the dynamic Jacobian callback of
`ThermalConductionFunctional::completeSetup`: reassemble (and count it)
exactly when `dt_ != previous_dt_`; the callback does not update
`previous_dt_`. -/
def dynJacobianEval (dt : ℚ) (st : DynJacobianState) : DynJacobianState :=
  if dt ≠ st.prev_dt then { st with assemblies := st.assemblies + 1 } else st

/-- `k` consecutive Jacobian requests of one Newton solve, all at the fixed
step size `dt` (nothing inside the solve writes `previous_dt_`). -/
def newtonJacobianEvals (dt : ℚ) : ℕ → DynJacobianState → DynJacobianState
  | 0, st => st
  | k + 1, st => newtonJacobianEvals dt k (dynJacobianEval dt st)

/-- Modelled from the spec: the ODE driver owning `previous_dt_`
(`serac/numerics/odes.cpp`, not under `src/`) records the step size of a
completed step, so the staleness comparison of the next step is against the
previous step's `dt`; the constructor initialises `previous_dt_ = -1.0` and
`dt_ = 0.0`.  One dynamic step is a Newton solve of `k` Jacobian requests at
the fixed `dt` followed by that record. -/
def dynStep (dt : ℚ) (k : ℕ) (st : DynJacobianState) : DynJacobianState :=
  let st' := newtonJacobianEvals dt k st
  { st' with prev_dt := dt }

/-- The claim's reading of the staleness check, stated from the spec's words:
the Jacobian is reassembled exactly when the active step size differs from the
step size at the previous Jacobian evaluation, i.e. the previous-dt record is
refreshed at every evaluation. -/
def specJacobianEval (dt : ℚ) (st : DynJacobianState) : DynJacobianState :=
  if dt ≠ st.prev_dt then { prev_dt := dt, assemblies := st.assemblies + 1 }
  else { prev_dt := dt, assemblies := st.assemblies }

/-- `k` consecutive Jacobian requests under the claim's per-evaluation
staleness reading. -/
def specJacobianEvals (dt : ℚ) : ℕ → DynJacobianState → DynJacobianState
  | 0, st => st
  | k + 1, st => specJacobianEvals dt k (specJacobianEval dt st)

/-! ### The solver facade's step (`NonlinearSolidSolver::AdvanceTimestep`)

Nodal and true-dof fields are vectors of an additive group `V`.  The Newton /
ODE stage is an opaque collaborator returning the solved `(velocity,
displacement)` pair together with the solver's convergence flag; the flag is
modelled explicitly because the claims are about whether the facade consults
it (`mfem::NewtonSolver::Mult` records convergence internally and returns
normally either way). -/

/-- The fields owned by `NonlinearSolidSolver` that `AdvanceTimestep` touches. -/
structure SolidState (V : Type _) where
  velocity : V
  displacement : V
  reference_nodes : V
  deformed_nodes : V
  mesh_nodes : V
  cycle : ℕ

/-- `NonlinearSolidSolver::AdvanceTimestep`: gather true dofs, set the mesh to
the reference nodes, run the quasi-static Newton solve or the ODE step,
redistribute, then set `deformed = displacement` (`Set(1.0, gf)`), add the
reference nodes in the quasi-static regime only (`Add(1.0, reference)`), point
the mesh at the deformed nodes and increment the cycle counter.  The
collaborator's convergence flag is never read. -/
def AdvanceTimestep {V : Type _} [AddCommGroup V] (quasistatic : Bool)
    (solve : V → V → (V × V) × Bool) (s : SolidState V) : SolidState V :=
  let solved := solve s.velocity s.displacement
  let u' := solved.1.2
  let d := if quasistatic then u' + s.reference_nodes else u'
  { velocity := solved.1.1
    displacement := u'
    reference_nodes := s.reference_nodes
    deformed_nodes := d
    mesh_nodes := d
    cycle := s.cycle + 1 }

/-! ### Essential boundary condition processing (`NonlinearSolidSolver::CompleteSetup`)

True-dof indices are integers; the vdof/dof identity maps of
`mfem::ParFiniteElementSpace` (`VDofToDof`, `DofToVDof`) are opaque
collaborators, taken as parameters. -/

/-- One registered essential boundary condition: its resolved true-dof list,
the requested component (`-1` = all components) and whether the stored
coefficient is the vector variant (`true`) or the scalar variant (`false`). -/
structure EssentialBC where
  true_dofs : List ℤ
  component : ℤ
  vectorCoef : Bool

/-- Insertion of an integer into a sorted list (helper for `Array::Sort`). -/
def insertSorted (x : ℤ) : List ℤ → List ℤ
  | [] => [x]
  | y :: ys => if x ≤ y then x :: y :: ys else y :: insertSorted x ys

/-- `mfem::Array<int>::Sort()`: sort the merged dof list. -/
def sortDofs : List ℤ → List ℤ
  | [] => []
  | x :: xs => insertSorted x (sortDofs xs)

/-- `mfem::Array<int>::Unique()`: drop adjacent duplicates (full dedup after a
sort). -/
def uniqueAdj : List ℤ → List ℤ
  | [] => []
  | [a] => [a]
  | a :: b :: rest => if a = b then uniqueAdj (b :: rest) else a :: uniqueAdj (b :: rest)

/-- The number of `SLIC_WARNING_IF` firings for one essential boundary
condition in `CompleteSetup`: one per constrained true-dof `tdof` with
`component != -1` and `tdof != DofToVDof(VDofToDof(tdof), component)`. -/
def bcWarnings (v2d : ℤ → ℤ) (d2v : ℤ → ℤ → ℤ) (bc : EssentialBC) : ℕ :=
  (bc.true_dofs.filter
    (fun tdof => decide (bc.component ≠ -1 ∧ tdof ≠ d2v (v2d tdof) bc.component))).length

/-- Whether the coefficient-variant `SLIC_ERROR_IF` for one essential boundary
condition fires in `CompleteSetup`: a fatal error exactly when the variant
does not match the component request (vector required for `component == -1`,
scalar required otherwise). -/
def bcFatal (bc : EssentialBC) : Bool :=
  if bc.component = -1 then !bc.vectorCoef else bc.vectorCoef

/-- Result of the essential-BC section of `CompleteSetup`: the merged,
sorted, deduplicated essential true-dof list handed to
`SetEssentialTrueDofs`, the count of component-mismatch warnings, and whether
any fatal configuration error fired. -/
structure SetupResult where
  essential_true_dofs : List ℤ
  warnings : ℕ
  fatal : Bool

/-- The essential-BC processing loop of `NonlinearSolidSolver::CompleteSetup`:
for each condition emit the component-mismatch warnings (never fatal), check
the coefficient variant (fatal on mismatch), append all of its true dofs to
the aggregate list, then `Sort` and `Unique` the aggregate. -/
def completeSetupEss (v2d : ℤ → ℤ) (d2v : ℤ → ℤ → ℤ) (bcs : List EssentialBC) : SetupResult :=
  { essential_true_dofs := uniqueAdj (sortDofs (bcs.flatMap (fun bc => bc.true_dofs)))
    warnings := (bcs.map (bcWarnings v2d d2v)).sum
    fatal := bcs.any bcFatal }

/-- `mfem` `VDofToDof` for a space with `Ordering::byVDIM` (the displacement
space is built `byVDIM` in the `NonlinearSolidSolver` constructor):
`vdof / vdim`. -/
def byVDIMVDofToDof (vdim : ℤ) (vdof : ℤ) : ℤ := vdof / vdim

/-- `mfem` `DofToVDof` for a space with `Ordering::byVDIM`:
`dof * vdim + component`. -/
def byVDIMDofToVDof (vdim : ℤ) (dof : ℤ) (component : ℤ) : ℤ := dof * vdim + component

/-! ### Concrete instances used to exercise the theorems -/

/-- A concrete `J2` material: `E = 2`, `nu = 0` (so `G = 1`, `K = 2/3`),
no hardening, `sigma_y = 1`, unit density. -/
noncomputable def mW1 : J2 := ⟨2, 0, 0, 0, 1, 1⟩

/-- The zero-initialized `J2` internal state. -/
noncomputable def stZero : J2.State := ⟨0, 0, 0⟩

/-- A concrete traceless back-stress whose relative-stress norm makes the
yield function evaluate to `2 * (3 G + Hk + Hi)` for `mW1` at zero strain. -/
noncomputable def betaW2 : M3 :=
  Matrix.of ![![14/3, 0, 0], ![0, -7/3, 0], ![0, 0, -7/3]]

/-- Committed state with back-stress `betaW2` and no plastic history. -/
noncomputable def stW2 : J2.State := ⟨betaW2, 0, 0⟩

/-- A concrete solver state over `ℚ`-valued fields, everything zeroed. -/
def s0Q : SolidState ℚ := ⟨0, 0, 0, 0, 0, 0⟩

/-- A collaborator solve that returns its input fields and reports
non-convergence. -/
def solveIdF : ℚ → ℚ → (ℚ × ℚ) × Bool := fun v u => ((v, u), false)

/-- A collaborator solve that returns its input fields and reports
convergence. -/
def solveIdT : ℚ → ℚ → (ℚ × ℚ) × Bool := fun v u => ((v, u), true)

/-- A concrete essential boundary condition requesting component `0` with a
scalar coefficient, whose single constrained true-dof `4` does not belong to
component `0` under the `byVDIM` maps with `vdim = 3`. -/
def bcW8 : EssentialBC := ⟨[4], 0, false⟩

/-- A non-symmetric plastic-strain tensor (a single off-diagonal entry). -/
noncomputable def psW10 : M3 := Matrix.of ![![0, 1, 0], ![0, 0, 0], ![0, 0, 0]]

/-- A `J2` material like `mW1` but with a large yield stress `sigma_y = 10`,
so the counterexample evaluation stays elastic. -/
noncomputable def mW10 : J2 := ⟨2, 0, 0, 0, 10, 1⟩

/-- Committed state holding the non-symmetric plastic strain `psW10`. -/
noncomputable def stW10 : J2.State := ⟨0, psW10, 0⟩

/-- A `J2` material with a negative yield stress (`sigma_y = -1`), otherwise
like `mW1`; the parameter type places no sign restriction. -/
noncomputable def mW6 : J2 := ⟨2, 0, 0, 0, -1, 1⟩

/-- A traceless diagonal displacement gradient. -/
noncomputable def duW6 : M3 :=
  Matrix.of ![![1, 0, 0], ![0, -1/2, 0], ![0, 0, -1/2]]

/-! ## Theorems -/

theorem trace_dev (A : M3) : Matrix.trace (dev A) = 0 := by
  simp [dev, Matrix.trace_smul, Matrix.trace_one]

theorem normSq_nonneg (A : M3) : 0 ≤ normSq A :=
  Finset.sum_nonneg fun _ _ => Finset.sum_nonneg fun _ _ => sq_nonneg _

theorem tnorm_nonneg (A : M3) : 0 ≤ tnorm A := Real.sqrt_nonneg _

theorem normSq_smul (c : ℝ) (A : M3) : normSq (c • A) = c ^ 2 * normSq A := by
  simp [normSq, Matrix.smul_apply, mul_pow, Finset.mul_sum]

theorem tnorm_smul (c : ℝ) (A : M3) : tnorm (c • A) = |c| * tnorm A := by
  rw [tnorm, tnorm, normSq_smul, Real.sqrt_mul (sq_nonneg c), Real.sqrt_sq_eq_abs]

/-- C7: for the zero displacement gradient (any spatial dimension), both
stateless constitutive models return the zero stress tensor, for all material
parameters. -/
theorem C7_zero_gradient_zero_stress :
    ∀ (n : ℕ) (lm : LinearIsotropic) (nm : NeoHookean),
      lm.apply (0 : Matrix (Fin n) (Fin n) ℝ) = 0 ∧
        nm.apply (0 : Matrix (Fin n) (Fin n) ℝ) = 0 := by
  intro n lm nm
  constructor
  · simp [LinearIsotropic.apply, sym]
  · simp [NeoHookean.apply]

/-- C1: whenever the yield function is nonpositive, one `J2` evaluation leaves
the internal state exactly unchanged and returns the deviatoric-plus-volumetric
stress `s + p * I`. -/
theorem C1_j2_elastic_step (m : J2) (state : J2.State) (du_dX : M3)
    (h : m.phi state du_dX ≤ 0) :
    J2.apply m state du_dX =
      (state, m.trialS state du_dX + m.trialP state du_dX • (1 : M3)) := by
  rw [J2.apply, if_neg (not_lt.mpr h)]

/-- Witness for C1 at a concrete elastic input: the zero state and zero
gradient give `phi = -1 ≤ 0`. -/
theorem C1_witness :
    J2.phi mW1 stZero 0 ≤ 0 ∧
      J2.apply mW1 stZero 0 =
        (stZero, J2.trialS mW1 stZero 0 + J2.trialP mW1 stZero 0 • (1 : M3)) := by
  have h : J2.phi mW1 stZero 0 ≤ 0 := by
    have hv : J2.phi mW1 stZero 0 = -1 := by
      simp [J2.phi, J2.eta, J2.trialS, J2.Gmod, mW1, stZero, sym, dev, tnorm, normSq]
    rw [hv]; norm_num
  exact ⟨h, C1_j2_elastic_step mW1 stZero 0 h⟩

/-- C2: whenever the yield function is positive, one `J2` evaluation computes
the plastic increment `phi / (3 G + Hk + Hi)`, adds exactly that increment to
the accumulated plastic strain, and returns
`s - sqrt(6) G inc * normalize(eta) + p * I`; if moreover
`phi = 2 (3 G + Hk + Hi)` then the accumulated plastic strain grows by
exactly `2`. -/
theorem C2_j2_plastic_step (m : J2) (state : J2.State) (du_dX : M3)
    (h : 0 < m.phi state du_dX) :
    (J2.apply m state du_dX).1.accumulated_plastic_strain
        = state.accumulated_plastic_strain
          + m.phi state du_dX / (3 * m.Gmod + m.Hk + m.Hi) ∧
      (J2.apply m state du_dX).2
        = (m.trialS state du_dX
              - (Real.sqrt 6 * m.Gmod * (m.phi state du_dX / (3 * m.Gmod + m.Hk + m.Hi)))
                • tnormalize (m.eta state du_dX))
            + m.trialP state du_dX • (1 : M3) ∧
      (m.phi state du_dX = 2 * (3 * m.Gmod + m.Hk + m.Hi) →
        (J2.apply m state du_dX).1.accumulated_plastic_strain
          = state.accumulated_plastic_strain + 2) := by
  rw [J2.apply, if_pos h]
  refine ⟨rfl, rfl, fun h2 => ?_⟩
  have hd : (0 : ℝ) < 3 * m.Gmod + m.Hk + m.Hi := by
    have := h
    rw [h2] at this
    linarith
  simp only [h2]
  rw [mul_div_assoc, div_self (ne_of_gt hd), mul_one]

/-- Witness for C2 at a concrete plastic input: with `mW1` and back-stress
`betaW2` the yield function at zero strain evaluates to
`6 = 2 * (3 G + Hk + Hi)`, so one evaluation adds exactly `2` to the
accumulated plastic strain. -/
theorem C2_witness :
    0 < J2.phi mW1 stW2 0 ∧
      (J2.apply mW1 stW2 0).1.accumulated_plastic_strain
        = stW2.accumulated_plastic_strain + 2 := by
  have hS : J2.trialS mW1 stW2 0 = 0 := by
    simp [J2.trialS, sym, dev, stW2]
  have heta : J2.eta mW1 stW2 0 = -betaW2 := by
    rw [J2.eta, hS]
    show 0 - stW2.beta = -betaW2
    simp [stW2]
  have hns : normSq (-betaW2) = 98 / 3 := by
    simp [normSq, betaW2, Fin.sum_univ_three, Matrix.vecHead, Matrix.vecTail]
    norm_num
  have hq : Real.sqrt (3 / 2) * tnorm (-betaW2) = 7 := by
    rw [tnorm, hns, ← Real.sqrt_mul (by norm_num)]
    rw [show (3 : ℝ) / 2 * (98 / 3) = 49 by norm_num]
    rw [show (49 : ℝ) = 7 ^ 2 by norm_num, Real.sqrt_sq (by norm_num)]
  have hphi : J2.phi mW1 stW2 0 = 6 := by
    rw [J2.phi, heta, hq]
    show (7 : ℝ) - (mW1.sigma_y + mW1.Hi * stW2.accumulated_plastic_strain) = 6
    simp [mW1, stW2]
    norm_num
  have hpos : 0 < J2.phi mW1 stW2 0 := by rw [hphi]; norm_num
  have h2d : J2.phi mW1 stW2 0 = 2 * (3 * J2.Gmod mW1 + mW1.Hk + mW1.Hi) := by
    rw [hphi]
    simp [J2.Gmod, mW1]
    norm_num
  exact ⟨hpos, (C2_j2_plastic_step mW1 stW2 0 hpos).2.2 h2d⟩

theorem newtonJacobianEvals_prev_dt (dt : ℚ) (k : ℕ) (st : DynJacobianState) :
    (newtonJacobianEvals dt k st).prev_dt = st.prev_dt := by
  induction k generalizing st with
  | zero => rfl
  | succ k ih =>
    rw [newtonJacobianEvals, ih]
    rw [dynJacobianEval]
    split <;> rfl

theorem newtonJacobianEvals_fixed (dt : ℚ) (k : ℕ) (st : DynJacobianState)
    (h : dt = st.prev_dt) : newtonJacobianEvals dt k st = st := by
  induction k generalizing st with
  | zero => rfl
  | succ k ih =>
    rw [newtonJacobianEvals, dynJacobianEval, if_neg (by simpa using h)]
    exact ih st h

theorem newtonJacobianEvals_changed (dt : ℚ) (k : ℕ) (st : DynJacobianState)
    (h : dt ≠ st.prev_dt) :
    (newtonJacobianEvals dt k st).assemblies = st.assemblies + k := by
  induction k generalizing st with
  | zero => rfl
  | succ k ih =>
    rw [newtonJacobianEvals, dynJacobianEval, if_pos (by simpa using h)]
    rw [ih { st with assemblies := st.assemblies + 1 } h]
    show st.assemblies + 1 + k = st.assemblies + (k + 1)
    omega

/-- C3 counterexample: starting from the constructor's record
`previous_dt_ = -1`, a step at `dt = 1` whose Newton solve requests the
Jacobian twice reassembles on BOTH requests — at the second request the
active step size equals the step size of the previous Jacobian evaluation,
yet the code still reassembles — whereas the claim's per-evaluation staleness
reading predicts a single reassembly. -/
theorem C3_counterexample :
    (newtonJacobianEvals 1 2 ⟨-1, 0⟩).assemblies = 2 ∧
      (specJacobianEvals 1 2 ⟨-1, 0⟩).assemblies = 1 := by
  constructor <;> rfl

/-- C3 amended: the dynamic Jacobian is reassembled exactly when the active
step size differs from the step size recorded at the previous completed step
(`previous_dt_`): a step whose `dt` equals the previous step's `dt` performs
no reassembly in any of its Newton iterations, and a step with a changed `dt`
reassembles on every one of its `k` Jacobian evaluations (hence exactly once
on the next Jacobian evaluation); afterwards the record holds the step's
`dt`. -/
theorem C3_amended_jacobian_reuse (dt : ℚ) (k : ℕ) (st : DynJacobianState) :
    (dt = st.prev_dt → (dynStep dt k st).assemblies = st.assemblies) ∧
      (dt ≠ st.prev_dt → (dynStep dt k st).assemblies = st.assemblies + k) ∧
      (dynStep dt k st).prev_dt = dt := by
  refine ⟨fun h => ?_, fun h => ?_, rfl⟩
  · show (newtonJacobianEvals dt k st).assemblies = st.assemblies
    rw [newtonJacobianEvals_fixed dt k st h]
  · show (newtonJacobianEvals dt k st).assemblies = st.assemblies + k
    exact newtonJacobianEvals_changed dt k st h

/-- Witness for the amended C3 at concrete inputs: a changed step size
(`1` against the recorded `-1`) makes a three-iteration Newton solve
reassemble three times, and a repeat step at the same `dt = 1` reassembles
zero times. -/
theorem C3_amended_witness :
    ((1 : ℚ) ≠ (-1 : ℚ) ∧ (dynStep 1 3 ⟨-1, 0⟩).assemblies = 0 + 3) ∧
      ((1 : ℚ) = (1 : ℚ) ∧ (dynStep 1 5 ⟨1, 3⟩).assemblies = 3) :=
  ⟨⟨by decide, (C3_amended_jacobian_reuse 1 3 ⟨-1, 0⟩).2.1 (by decide)⟩,
   ⟨rfl, (C3_amended_jacobian_reuse 1 5 ⟨1, 3⟩).1 rfl⟩⟩

/-- C4 counterexample: a step whose Newton stage reports non-convergence is
processed identically to a converged one — the facade updates the fields and
geometry, increments the cycle counter and returns no failure indication —
so `AdvanceTimestep` proceeds as if the step converged. -/
theorem C4_counterexample :
    AdvanceTimestep true solveIdF s0Q = AdvanceTimestep true solveIdT s0Q ∧
      (AdvanceTimestep true solveIdF s0Q).cycle = 1 :=
  ⟨rfl, rfl⟩

/-- C4 amended: `AdvanceTimestep` never consults the nonlinear solver's
convergence flag: for any solve outcome the returned state is the same
whether the solver reports success or failure, and the step is always
accepted (the cycle counter advances unconditionally); its signature carries
no failed-step result at all. -/
theorem C4_amended_no_failure_report {V : Type _} [AddCommGroup V]
    (quasistatic : Bool) (solve : V → V → V × V) (b b' : Bool) (s : SolidState V) :
    AdvanceTimestep quasistatic (fun v u => (solve v u, b)) s
        = AdvanceTimestep quasistatic (fun v u => (solve v u, b')) s ∧
      (AdvanceTimestep quasistatic (fun v u => (solve v u, b)) s).cycle = s.cycle + 1 :=
  ⟨rfl, rfl⟩

/-- C5: after a quasi-static `AdvanceTimestep` the deformed node field equals
the reference nodes plus the newly solved displacement field and the mesh's
active node-set is exactly this deformed field; in the dynamic regime the
deformed node-set instead carries the ODE-accumulated displacement, so a
dynamic step advances it by exactly the step's displacement increment. -/
theorem C5_geometry_update {V : Type _} [AddCommGroup V]
    (solve : V → V → (V × V) × Bool) (s : SolidState V) :
    ((AdvanceTimestep true solve s).deformed_nodes
          = s.reference_nodes + (AdvanceTimestep true solve s).displacement) ∧
      ((AdvanceTimestep true solve s).mesh_nodes
          = (AdvanceTimestep true solve s).deformed_nodes) ∧
      ((AdvanceTimestep false solve s).deformed_nodes
          = (AdvanceTimestep false solve s).displacement) ∧
      ((AdvanceTimestep false solve s).mesh_nodes
          = (AdvanceTimestep false solve s).deformed_nodes) ∧
      (s.deformed_nodes = s.displacement →
        (AdvanceTimestep false solve s).deformed_nodes
          = s.deformed_nodes
            + ((AdvanceTimestep false solve s).displacement - s.displacement)) := by
  refine ⟨?_, rfl, rfl, rfl, fun h => ?_⟩
  · show (solve s.velocity s.displacement).1.2 + s.reference_nodes
        = s.reference_nodes + (solve s.velocity s.displacement).1.2
    exact add_comm _ _
  · rw [h]
    show (solve s.velocity s.displacement).1.2
        = s.displacement + ((solve s.velocity s.displacement).1.2 - s.displacement)
    abel

/-- Witness for C5 at a concrete dynamic input: the zeroed state satisfies the
accumulation invariant, and a dynamic step advances the deformed node-set by
the displacement increment. -/
theorem C5_witness :
    s0Q.deformed_nodes = s0Q.displacement ∧
      (AdvanceTimestep false solveIdT s0Q).deformed_nodes
        = s0Q.deformed_nodes
          + ((AdvanceTimestep false solveIdT s0Q).displacement - s0Q.displacement) :=
  ⟨rfl, (C5_geometry_update solveIdT s0Q).2.2.2.2 rfl⟩

theorem mem_insertSorted {x y : ℤ} {l : List ℤ} (h : x ∈ l ∨ x = y) :
    x ∈ insertSorted y l := by
  induction l with
  | nil =>
    rcases h with h | h
    · exact absurd h (List.not_mem_nil x)
    · subst h
      exact List.mem_cons_self x []
  | cons a as ih =>
    rw [insertSorted]
    split
    · rcases h with h | h
      · exact List.mem_cons_of_mem _ h
      · subst h
        exact List.mem_cons_self x _
    · rcases h with h | h
      · rcases List.mem_cons.mp h with h | h
        · subst h
          exact List.mem_cons_self x _
        · exact List.mem_cons_of_mem _ (ih (Or.inl h))
      · exact List.mem_cons_of_mem _ (ih (Or.inr h))

theorem mem_sortDofs {x : ℤ} {l : List ℤ} (h : x ∈ l) : x ∈ sortDofs l := by
  induction l with
  | nil => exact absurd h (List.not_mem_nil x)
  | cons a as ih =>
    rw [sortDofs]
    rcases List.mem_cons.mp h with h | h
    · exact mem_insertSorted (Or.inr h)
    · exact mem_insertSorted (Or.inl (ih h))

theorem mem_uniqueAdj {x : ℤ} : ∀ {l : List ℤ}, x ∈ l → x ∈ uniqueAdj l
  | [], h => absurd h (List.not_mem_nil x)
  | [_], h => by rw [uniqueAdj]; exact h
  | a :: b :: rest, h => by
    rw [uniqueAdj]
    rcases List.mem_cons.mp h with hxa | hrest
    · split
      · next heq =>
        exact mem_uniqueAdj (by rw [hxa, heq]; exact List.mem_cons_self b rest)
      · exact hxa ▸ List.mem_cons_self x _
    · split
      · exact mem_uniqueAdj hrest
      · exact List.mem_cons_of_mem a (mem_uniqueAdj hrest)

theorem le_sum_of_mem_map (f : EssentialBC → ℕ) {bcs : List EssentialBC}
    {bc : EssentialBC} (h : bc ∈ bcs) : f bc ≤ (bcs.map f).sum := by
  induction bcs with
  | nil => exact absurd h (List.not_mem_nil bc)
  | cons a as ih =>
    rcases List.mem_cons.mp h with h | h
    · subst h
      simp only [List.map_cons, List.sum_cons]
      exact Nat.le_add_right _ _
    · simp only [List.map_cons, List.sum_cons]
      exact (ih h).trans (Nat.le_add_left _ _)

/-- C8: an essential boundary condition registered with a specific component
(`component != -1`) whose constrained true-dof does not match the requested
component under the space's dof identity maps produces a configuration
warning, contributes nothing fatal (fatality depends only on the
coefficient-variant checks), and the dof is still placed in the merged
essential true-dof set exactly as given. -/
theorem C8_component_mismatch_tolerated
    (v2d : ℤ → ℤ) (d2v : ℤ → ℤ → ℤ) (bcs : List EssentialBC)
    (bc : EssentialBC) (tdof : ℤ)
    (hbc : bc ∈ bcs) (htd : tdof ∈ bc.true_dofs)
    (hcomp : bc.component ≠ -1) (hmis : tdof ≠ d2v (v2d tdof) bc.component) :
    1 ≤ (completeSetupEss v2d d2v bcs).warnings ∧
      ((∀ b ∈ bcs, bcFatal b = false) →
        (completeSetupEss v2d d2v bcs).fatal = false) ∧
      tdof ∈ (completeSetupEss v2d d2v bcs).essential_true_dofs := by
  refine ⟨?_, fun hall => ?_, ?_⟩
  · have hmem : tdof ∈ bc.true_dofs.filter
        (fun t => decide (bc.component ≠ -1 ∧ t ≠ d2v (v2d t) bc.component)) :=
      List.mem_filter.mpr ⟨htd, by simp [hcomp, hmis]⟩
    have h1 : 1 ≤ bcWarnings v2d d2v bc := List.length_pos_of_mem hmem
    exact h1.trans (le_sum_of_mem_map (bcWarnings v2d d2v) hbc)
  · show bcs.any bcFatal = false
    rw [List.any_eq_false]
    intro b hb
    simp [hall b hb]
  · show tdof ∈ uniqueAdj (sortDofs (bcs.flatMap (fun c => c.true_dofs)))
    exact mem_uniqueAdj (mem_sortDofs (List.mem_flatMap.mpr ⟨bc, hbc, htd⟩))

/-- Witness for C8 at a concrete input: true-dof `4` with requested component
`0` under the `byVDIM` identity maps with `vdim = 3` is a mismatch
(`DofToVDof(VDofToDof(4), 0) = 3 ≠ 4`); setup emits a warning, stays
non-fatal, and still constrains dof `4`. -/
theorem C8_witness :
    (bcW8 ∈ [bcW8] ∧ (4 : ℤ) ∈ bcW8.true_dofs ∧ bcW8.component ≠ -1 ∧
        (4 : ℤ) ≠ byVDIMDofToVDof 3 (byVDIMVDofToDof 3 4) bcW8.component) ∧
      1 ≤ (completeSetupEss (byVDIMVDofToDof 3) (byVDIMDofToVDof 3) [bcW8]).warnings ∧
      ((∀ b ∈ [bcW8], bcFatal b = false) →
        (completeSetupEss (byVDIMVDofToDof 3) (byVDIMDofToVDof 3) [bcW8]).fatal = false) ∧
      (4 : ℤ) ∈ (completeSetupEss (byVDIMVDofToDof 3) (byVDIMDofToVDof 3)
        [bcW8]).essential_true_dofs :=
  ⟨⟨List.mem_singleton.mpr rfl, by decide, by decide, by decide⟩,
    C8_component_mismatch_tolerated (byVDIMVDofToDof 3) (byVDIMDofToVDof 3) [bcW8] bcW8 4
      (List.mem_singleton.mpr rfl) (by decide) (by decide) (by decide)⟩

/-- C9: one `J2` evaluation preserves tracelessness of the plastic strain and
the back-stress, and under that invariant the trace of the returned stress is
carried entirely by the volumetric part `p = K tr(sym(du_dX))`, untouched by
plastic history. -/
theorem C9_traceless_invariant (m : J2) (state : J2.State) (du_dX : M3)
    (hps : Matrix.trace state.plastic_strain = 0)
    (hbeta : Matrix.trace state.beta = 0) :
    Matrix.trace (J2.apply m state du_dX).1.plastic_strain = 0 ∧
      Matrix.trace (J2.apply m state du_dX).1.beta = 0 ∧
      Matrix.trace (J2.apply m state du_dX).2
        = 3 * (m.Kmod * Matrix.trace (sym du_dX)) := by
  have hts : Matrix.trace (m.trialS state du_dX) = 0 := by
    rw [J2.trialS, Matrix.trace_smul, trace_dev, smul_zero]
  have hte : Matrix.trace (m.eta state du_dX) = 0 := by
    rw [J2.eta, Matrix.trace_sub, hts, hbeta, sub_zero]
  have htn : Matrix.trace (tnormalize (m.eta state du_dX)) = 0 := by
    rw [tnormalize, Matrix.trace_smul, hte, smul_zero]
  have hp : m.trialP state du_dX = m.Kmod * Matrix.trace (sym du_dX) := by
    rw [J2.trialP, Matrix.trace_sub, hps, sub_zero]
  rw [J2.apply]
  split
  · refine ⟨?_, ?_, ?_⟩ <;>
      simp only [Matrix.trace_add, Matrix.trace_sub, Matrix.trace_smul, Matrix.trace_one,
        hps, hbeta, hts, htn, hp, smul_eq_mul, mul_zero, add_zero, sub_zero, zero_add,
        Fintype.card_fin, Nat.cast_ofNat]
    ring
  · refine ⟨hps, hbeta, ?_⟩
    simp only [Matrix.trace_add, Matrix.trace_smul, Matrix.trace_one, hts, hp,
      smul_eq_mul, zero_add, Fintype.card_fin, Nat.cast_ofNat]
    ring

/-- Witness for C9: the zero-initialized state is traceless, and one
evaluation of `mW1` at the zero gradient keeps it so with purely volumetric
trace. -/
theorem C9_witness :
    (Matrix.trace stZero.plastic_strain = 0 ∧ Matrix.trace stZero.beta = 0) ∧
      Matrix.trace (J2.apply mW1 stZero 0).1.plastic_strain = 0 ∧
      Matrix.trace (J2.apply mW1 stZero 0).1.beta = 0 ∧
      Matrix.trace (J2.apply mW1 stZero 0).2
        = 3 * (J2.Kmod mW1 * Matrix.trace (sym (0 : M3))) := by
  have h1 : Matrix.trace stZero.plastic_strain = 0 := by simp [stZero]
  have h2 : Matrix.trace stZero.beta = 0 := by simp [stZero]
  exact ⟨⟨h1, h2⟩, C9_traceless_invariant mW1 stZero 0 h1 h2⟩

theorem transpose_sym {n : ℕ} (A : Matrix (Fin n) (Fin n) ℝ) :
    (sym A).transpose = sym A := by
  rw [sym, Matrix.transpose_smul, Matrix.transpose_add, Matrix.transpose_transpose,
    add_comm A A.transpose]

theorem transpose_dev (A : M3) (h : A.transpose = A) : (dev A).transpose = dev A := by
  rw [dev, Matrix.transpose_sub, Matrix.transpose_smul, Matrix.transpose_one, h]

theorem transpose_trialS (m : J2) (state : J2.State) (du_dX : M3)
    (hps : state.plastic_strain.transpose = state.plastic_strain) :
    (m.trialS state du_dX).transpose = m.trialS state du_dX := by
  rw [J2.trialS, Matrix.transpose_smul,
    transpose_dev _ (by rw [Matrix.transpose_sub, transpose_sym, hps])]

theorem transpose_eta (m : J2) (state : J2.State) (du_dX : M3)
    (hps : state.plastic_strain.transpose = state.plastic_strain)
    (hbeta : state.beta.transpose = state.beta) :
    (m.eta state du_dX).transpose = m.eta state du_dX := by
  rw [J2.eta, Matrix.transpose_sub, transpose_trialS m state du_dX hps, hbeta]

theorem transpose_tnormalize (A : M3) (h : A.transpose = A) :
    (tnormalize A).transpose = tnormalize A := by
  rw [tnormalize, Matrix.transpose_smul, h]

/-- C10 amended: the stresses returned by `LinearIsotropic` and `NeoHookean`
are symmetric for every (not necessarily symmetric) displacement gradient,
and the `J2` stress is symmetric for every displacement gradient whenever the
committed plastic-strain and back-stress tensors are themselves symmetric
(as holds for the zero-initialized state). -/
theorem C10_amended_stress_symmetric :
    (∀ (n : ℕ) (lm : LinearIsotropic) (du : Matrix (Fin n) (Fin n) ℝ),
        (lm.apply du).transpose = lm.apply du) ∧
      (∀ (n : ℕ) (nm : NeoHookean) (du : Matrix (Fin n) (Fin n) ℝ),
        (nm.apply du).transpose = nm.apply du) ∧
      (∀ (m : J2) (state : J2.State) (du : M3),
        state.plastic_strain.transpose = state.plastic_strain →
          state.beta.transpose = state.beta →
            (J2.apply m state du).2.transpose = (J2.apply m state du).2) := by
  refine ⟨fun n lm du => ?_, fun n nm du => ?_, fun m state du hps hbeta => ?_⟩
  · simp only [LinearIsotropic.apply]
    rw [Matrix.transpose_add, Matrix.transpose_smul, Matrix.transpose_one,
      Matrix.transpose_smul, transpose_sym]
  · simp only [NeoHookean.apply]
    rw [Matrix.transpose_add, Matrix.transpose_smul, Matrix.transpose_one,
      Matrix.transpose_smul, Matrix.transpose_add, Matrix.transpose_add,
      Matrix.transpose_mul, Matrix.transpose_transpose, add_right_comm]
  · have hS := transpose_trialS m state du hps
    have hE := transpose_eta m state du hps hbeta
    have hN := transpose_tnormalize _ hE
    rw [J2.apply]
    split
    · simp only [Matrix.transpose_add, Matrix.transpose_sub, Matrix.transpose_smul,
        Matrix.transpose_one, hS, hN]
    · simp only [Matrix.transpose_add, Matrix.transpose_smul, Matrix.transpose_one, hS]

/-- C10 counterexample: at the committed state whose plastic-strain tensor is
not symmetric (`psW10`), the stress returned by `J2` for the zero
displacement gradient is itself not symmetric. -/
theorem C10_counterexample :
    ¬ (J2.apply mW10 stW10 0).2.transpose = (J2.apply mW10 stW10 0).2 := by
  have hs : J2.trialS mW10 stW10 0 = -((2 : ℝ) • psW10) := by
    rw [J2.trialS]
    have h0 : sym (0 : M3) - stW10.plastic_strain = -psW10 := by
      simp [sym, stW10]
    have htr : Matrix.trace (-psW10 : M3) = 0 := by
      simp [psW10, Matrix.trace, Matrix.diag, Fin.sum_univ_three, Matrix.vecHead,
        Matrix.vecTail]
    have hG : J2.Gmod mW10 = 1 := by
      rw [J2.Gmod]
      show (1 / 2) * mW10.E / (1 + mW10.nu) = 1
      simp [mW10]
    rw [h0, dev, htr, hG]
    simp [smul_neg]
  have heta : J2.eta mW10 stW10 0 = -((2 : ℝ) • psW10) := by
    rw [J2.eta, hs]
    show -((2 : ℝ) • psW10) - stW10.beta = -((2 : ℝ) • psW10)
    simp [stW10]
  have hns : normSq (J2.eta mW10 stW10 0) = 4 := by
    rw [heta]
    simp [normSq, psW10, Fin.sum_univ_three, Matrix.vecHead, Matrix.vecTail,
      Matrix.neg_apply, Matrix.smul_apply]
    norm_num
  have hphi : J2.phi mW10 stW10 0 ≤ 0 := by
    rw [J2.phi, tnorm, hns]
    rw [show (4 : ℝ) = 2 ^ 2 by norm_num, Real.sqrt_sq (by norm_num)]
    have h32 : Real.sqrt (3 / 2) ≤ 2 := by
      have h4 : Real.sqrt 4 = 2 := by
        rw [show (4 : ℝ) = 2 ^ 2 by norm_num, Real.sqrt_sq (by norm_num)]
      have hle : Real.sqrt (3 / 2) ≤ Real.sqrt 4 := Real.sqrt_le_sqrt (by norm_num)
      rw [h4] at hle
      exact hle
    have hsy : mW10.sigma_y + mW10.Hi * stW10.accumulated_plastic_strain = 10 := by
      simp [mW10, stW10]
    rw [hsy]
    linarith
  have hp0 : J2.trialP mW10 stW10 0 = 0 := by
    rw [J2.trialP]
    have h0 : sym (0 : M3) - stW10.plastic_strain = -psW10 := by
      simp [sym, stW10]
    rw [h0]
    have htr : Matrix.trace (-psW10 : M3) = 0 := by
      simp [psW10, Matrix.trace, Matrix.diag, Fin.sum_univ_three, Matrix.vecHead,
        Matrix.vecTail]
    rw [htr, mul_zero]
  have happly : (J2.apply mW10 stW10 0).2 = -((2 : ℝ) • psW10) := by
    rw [J2.apply, if_neg (not_lt.mpr hphi)]
    show J2.trialS mW10 stW10 0 + J2.trialP mW10 stW10 0 • (1 : M3) = -((2 : ℝ) • psW10)
    rw [hs, hp0, zero_smul, add_zero]
  intro h
  rw [happly] at h
  have hentry := congrFun (congrFun h 0) 1
  simp [Matrix.transpose_apply, Matrix.neg_apply, Matrix.smul_apply, psW10,
    Matrix.vecHead, Matrix.vecTail] at hentry

/-- Witness for the amended C10: the zero-initialized state has symmetric
plastic strain and back-stress, and the resulting `J2` stress is symmetric. -/
theorem C10_witness :
    (stZero.plastic_strain.transpose = stZero.plastic_strain ∧
        stZero.beta.transpose = stZero.beta) ∧
      (J2.apply mW1 stZero 0).2.transpose = (J2.apply mW1 stZero 0).2 := by
  have h1 : stZero.plastic_strain.transpose = stZero.plastic_strain := by simp [stZero]
  have h2 : stZero.beta.transpose = stZero.beta := by simp [stZero]
  exact ⟨⟨h1, h2⟩, C10_amended_stress_symmetric.2.2 mW1 stZero 0 h1 h2⟩

theorem sqrt32_mul_sqrt6 : Real.sqrt (3 / 2) * Real.sqrt 6 = 3 := by
  rw [← Real.sqrt_mul (by norm_num)]
  rw [show (3 : ℝ) / 2 * 6 = 9 by norm_num]
  rw [show (9 : ℝ) = 3 ^ 2 by norm_num, Real.sqrt_sq (by norm_num)]

theorem sqrt32_mul_sqrt23 : Real.sqrt (3 / 2) * Real.sqrt (2 / 3) = 1 := by
  rw [← Real.sqrt_mul (by norm_num)]
  rw [show (3 : ℝ) / 2 * (2 / 3) = 1 by norm_num, Real.sqrt_one]

theorem sqrt32_mul_inv_sqrt6 : Real.sqrt (3 / 2) * (Real.sqrt 6)⁻¹ = 1 / 2 := by
  rw [← Real.sqrt_inv, ← Real.sqrt_mul (by norm_num)]
  rw [show (3 : ℝ) / 2 * 6⁻¹ = 1 / 4 by norm_num]
  rw [show (1 : ℝ) / 4 = (1 / 2) ^ 2 by norm_num, Real.sqrt_sq (by norm_num)]

theorem sqrt_six_eq : Real.sqrt 6 = 2 * Real.sqrt (3 / 2) := by
  rw [show (6 : ℝ) = 4 * (3 / 2) by norm_num, Real.sqrt_mul (by norm_num)]
  rw [show (4 : ℝ) = 2 ^ 2 by norm_num, Real.sqrt_sq (by norm_num)]

theorem sqrt_combination (G Hk d : ℝ) :
    Real.sqrt (3 / 2) * (Real.sqrt 6 * G * d + Real.sqrt (2 / 3) * Hk * d)
      = (3 * G + Hk) * d := by
  linear_combination (G * d) * sqrt32_mul_sqrt6 + (Hk * d) * sqrt32_mul_sqrt23

theorem dev_sub (A B : M3) : dev (A - B) = dev A - dev B := by
  rw [dev, dev, dev, Matrix.trace_sub, sub_div, sub_smul]
  abel

theorem dev_smul (c : ℝ) (A : M3) : dev (c • A) = c • dev A := by
  rw [dev, dev, Matrix.trace_smul, smul_sub, smul_smul, smul_eq_mul, mul_div_assoc]

theorem dev_eq_self (A : M3) (h : Matrix.trace A = 0) : dev A = A := by
  rw [dev, h]
  simp

theorem trace_trialS_zero (m : J2) (state : J2.State) (du_dX : M3) :
    Matrix.trace (m.trialS state du_dX) = 0 := by
  rw [J2.trialS, Matrix.trace_smul, trace_dev, smul_zero]

theorem trace_eta (m : J2) (state : J2.State) (du_dX : M3)
    (hb : Matrix.trace state.beta = 0) : Matrix.trace (m.eta state du_dX) = 0 := by
  rw [J2.eta, Matrix.trace_sub, trace_trialS_zero, hb, sub_zero]

theorem trace_tnormalize (A : M3) (h : Matrix.trace A = 0) :
    Matrix.trace (tnormalize A) = 0 := by
  rw [tnormalize, Matrix.trace_smul, h, smul_zero]

theorem j2_apply_plastic (m : J2) (state : J2.State) (du_dX : M3)
    (h : 0 < m.phi state du_dX) :
    J2.apply m state du_dX
      = (J2.step1State m state du_dX, J2.step1Stress m state du_dX) := by
  rw [J2.apply, if_pos h, J2.step1State, J2.step1Stress]

theorem j2_apply_elastic (m : J2) (state : J2.State) (du_dX : M3)
    (h : ¬ 0 < m.phi state du_dX) :
    J2.apply m state du_dX
      = (state, m.trialS state du_dX + m.trialP state du_dX • (1 : M3)) := by
  rw [J2.apply, if_neg h]

theorem phi2_eq_zero_scalar (G Hk Hi sy acc Φ N : ℝ)
    (hD : 0 < 3 * G + Hk + Hi) (hN : 0 < N)
    (hq : Real.sqrt (3 / 2) * N = Φ + (sy + Hi * acc)) :
    Real.sqrt (3 / 2)
        * ((1 - (Real.sqrt 6 * G * (Φ / (3 * G + Hk + Hi))
              + Real.sqrt (2 / 3) * Hk * (Φ / (3 * G + Hk + Hi))) * N⁻¹) * N)
      - (sy + Hi * (acc + Φ / (3 * G + Hk + Hi))) = 0 := by
  have hcomb := sqrt_combination G Hk (Φ / (3 * G + Hk + Hi))
  have hNN : N⁻¹ * N = 1 := inv_mul_cancel₀ (ne_of_gt hN)
  have hdiv : Φ / (3 * G + Hk + Hi) * (3 * G + Hk + Hi) = Φ :=
    div_mul_cancel₀ Φ (ne_of_gt hD)
  linear_combination hq - (N⁻¹ * N) * hcomb
    - ((3 * G + Hk) * (Φ / (3 * G + Hk + Hi))) * hNN - hdiv

theorem k_nonneg_scalar (G Hk Hi sy acc Φ N : ℝ)
    (hG : 0 < G) (hHk : 0 ≤ Hk) (hHi : 0 ≤ Hi)
    (hA : 0 ≤ sy + Hi * acc) (hphi : 0 < Φ) (hN : 0 < N)
    (hq : Real.sqrt (3 / 2) * N = Φ + (sy + Hi * acc)) :
    0 ≤ 1 - (Real.sqrt 6 * G * (Φ / (3 * G + Hk + Hi))
        + Real.sqrt (2 / 3) * Hk * (Φ / (3 * G + Hk + Hi))) * N⁻¹ := by
  have hD : 0 < 3 * G + Hk + Hi := by linarith
  have hcomb := sqrt_combination G Hk (Φ / (3 * G + Hk + Hi))
  have hkey : (3 * G + Hk) * (Φ / (3 * G + Hk + Hi)) ≤ Φ := by
    rw [← mul_div_assoc, div_le_iff₀ hD]
    nlinarith
  have hs32 : 0 < Real.sqrt (3 / 2) := Real.sqrt_pos.mpr (by norm_num)
  have hsleN : Real.sqrt 6 * G * (Φ / (3 * G + Hk + Hi))
      + Real.sqrt (2 / 3) * Hk * (Φ / (3 * G + Hk + Hi)) ≤ N := by
    have h2 : Real.sqrt (3 / 2)
        * (Real.sqrt 6 * G * (Φ / (3 * G + Hk + Hi))
            + Real.sqrt (2 / 3) * Hk * (Φ / (3 * G + Hk + Hi)))
        ≤ Real.sqrt (3 / 2) * N := by
      rw [hcomb, hq]
      linarith
    exact le_of_mul_le_mul_left h2 hs32
  have hfin : (Real.sqrt 6 * G * (Φ / (3 * G + Hk + Hi))
      + Real.sqrt (2 / 3) * Hk * (Φ / (3 * G + Hk + Hi))) * N⁻¹ ≤ 1 := by
    rw [← div_eq_mul_inv, div_le_one hN]
    exact hsleN
  linarith

/-- C6 amended: evaluating `J2` twice at the same displacement gradient, the
second evaluation starting from the state left by the first, returns the same
stress and leaves the state exactly as the first evaluation left it —
provided the committed back-stress is traceless, the accumulated plastic
strain is nonnegative, and the material parameters are physical
(`sigma_y, Hi, Hk ≥ 0` and shear modulus `G > 0`). -/
theorem C6_amended_idempotent (m : J2) (state : J2.State) (du_dX : M3)
    (hb : Matrix.trace state.beta = 0)
    (hacc : 0 ≤ state.accumulated_plastic_strain)
    (hsy : 0 ≤ m.sigma_y) (hHi : 0 ≤ m.Hi) (hHk : 0 ≤ m.Hk) (hG : 0 < m.Gmod) :
    J2.apply m (J2.apply m state du_dX).1 du_dX = J2.apply m state du_dX := by
  by_cases hphi : 0 < m.phi state du_dX
  · -- the first evaluation is plastic
    have hD : 0 < 3 * m.Gmod + m.Hk + m.Hi := by linarith
    have hA : 0 ≤ m.sigma_y + m.Hi * state.accumulated_plastic_strain :=
      add_nonneg hsy (mul_nonneg hHi hacc)
    have hq : Real.sqrt (3 / 2) * tnorm (m.eta state du_dX)
        = m.phi state du_dX
          + (m.sigma_y + m.Hi * state.accumulated_plastic_strain) := by
      rw [J2.phi]
      ring
    have hNpos : 0 < tnorm (m.eta state du_dX) := by
      rcases lt_or_eq_of_le (tnorm_nonneg (m.eta state du_dX)) with h | h
      · exact h
      · exfalso
        rw [← h, mul_zero] at hq
        have : (0 : ℝ) < m.phi state du_dX
            + (m.sigma_y + m.Hi * state.accumulated_plastic_strain) := by linarith
        linarith
    have htre : Matrix.trace (m.eta state du_dX) = 0 := trace_eta m state du_dX hb
    have htrn : Matrix.trace (tnormalize (m.eta state du_dX)) = 0 :=
      trace_tnormalize _ htre
    have hdevn : dev (tnormalize (m.eta state du_dX)) = tnormalize (m.eta state du_dX) :=
      dev_eq_self _ htrn
    rw [j2_apply_plastic m state du_dX hphi]
    show J2.apply m (J2.step1State m state du_dX) du_dX
        = (J2.step1State m state du_dX, J2.step1Stress m state du_dX)
    have e0 : (J2.step1State m state du_dX).beta
        = state.beta
          + (Real.sqrt (2 / 3) * m.Hk
              * (m.phi state du_dX / (3 * m.Gmod + m.Hk + m.Hi)))
            • tnormalize (m.eta state du_dX) := rfl
    have e1 : (J2.step1State m state du_dX).plastic_strain
        = state.plastic_strain
          + (Real.sqrt (3 / 2) * (m.phi state du_dX / (3 * m.Gmod + m.Hk + m.Hi)))
            • tnormalize (m.eta state du_dX) := rfl
    have e2 : (J2.step1State m state du_dX).accumulated_plastic_strain
        = state.accumulated_plastic_strain
          + m.phi state du_dX / (3 * m.Gmod + m.Hk + m.Hi) := rfl
    have hP2 : m.trialP (J2.step1State m state du_dX) du_dX = m.trialP state du_dX := by
      rw [J2.trialP, J2.trialP, e1, sub_add_eq_sub_sub, Matrix.trace_sub
        (sym du_dX - state.plastic_strain), Matrix.trace_smul, htrn, smul_zero, sub_zero]
    have hS2 : m.trialS (J2.step1State m state du_dX) du_dX
        = m.trialS state du_dX
          - (Real.sqrt 6 * m.Gmod * (m.phi state du_dX / (3 * m.Gmod + m.Hk + m.Hi)))
            • tnormalize (m.eta state du_dX) := by
      rw [J2.trialS, J2.trialS, e1, sub_add_eq_sub_sub, dev_sub, dev_smul, hdevn,
        smul_sub, smul_smul]
      congr 2
      rw [sqrt_six_eq]
      ring
    have step1 : m.trialS state du_dX
          - (Real.sqrt 6 * m.Gmod * (m.phi state du_dX / (3 * m.Gmod + m.Hk + m.Hi)))
            • tnormalize (m.eta state du_dX)
          - (state.beta
              + (Real.sqrt (2 / 3) * m.Hk
                  * (m.phi state du_dX / (3 * m.Gmod + m.Hk + m.Hi)))
                • tnormalize (m.eta state du_dX))
        = m.eta state du_dX
          - (Real.sqrt 6 * m.Gmod * (m.phi state du_dX / (3 * m.Gmod + m.Hk + m.Hi))
              + Real.sqrt (2 / 3) * m.Hk
                * (m.phi state du_dX / (3 * m.Gmod + m.Hk + m.Hi)))
            • tnormalize (m.eta state du_dX) := by
      rw [J2.eta, add_smul]
      abel
    have hη2 : m.eta (J2.step1State m state du_dX) du_dX
        = (1 - (Real.sqrt 6 * m.Gmod * (m.phi state du_dX / (3 * m.Gmod + m.Hk + m.Hi))
              + Real.sqrt (2 / 3) * m.Hk
                * (m.phi state du_dX / (3 * m.Gmod + m.Hk + m.Hi)))
            * (tnorm (m.eta state du_dX))⁻¹) • m.eta state du_dX := by
      rw [J2.eta, hS2, e0, step1, tnormalize, smul_smul, sub_smul, one_smul]
    have hk : 0 ≤ 1
        - (Real.sqrt 6 * m.Gmod * (m.phi state du_dX / (3 * m.Gmod + m.Hk + m.Hi))
            + Real.sqrt (2 / 3) * m.Hk
              * (m.phi state du_dX / (3 * m.Gmod + m.Hk + m.Hi)))
          * (tnorm (m.eta state du_dX))⁻¹ :=
      k_nonneg_scalar m.Gmod m.Hk m.Hi m.sigma_y state.accumulated_plastic_strain
        (m.phi state du_dX) (tnorm (m.eta state du_dX)) hG hHk hHi hA hphi hNpos hq
    have htn2 : tnorm (m.eta (J2.step1State m state du_dX) du_dX)
        = (1 - (Real.sqrt 6 * m.Gmod * (m.phi state du_dX / (3 * m.Gmod + m.Hk + m.Hi))
              + Real.sqrt (2 / 3) * m.Hk
                * (m.phi state du_dX / (3 * m.Gmod + m.Hk + m.Hi)))
            * (tnorm (m.eta state du_dX))⁻¹) * tnorm (m.eta state du_dX) := by
      rw [hη2, tnorm_smul, abs_of_nonneg hk]
    have hphi2 : m.phi (J2.step1State m state du_dX) du_dX = 0 := by
      rw [J2.phi, htn2, e2]
      exact phi2_eq_zero_scalar m.Gmod m.Hk m.Hi m.sigma_y
        state.accumulated_plastic_strain (m.phi state du_dX)
        (tnorm (m.eta state du_dX)) hD hNpos hq
    rw [j2_apply_elastic m (J2.step1State m state du_dX) du_dX
      (by rw [hphi2]; exact lt_irrefl 0)]
    rw [Prod.mk.injEq]
    refine ⟨rfl, ?_⟩
    rw [hS2, hP2, J2.step1Stress]
  · -- the first evaluation is elastic: the state is untouched
    have h1 : (J2.apply m state du_dX).1 = state := by
      rw [J2.apply, if_neg hphi]
    rw [h1]

/-- C6 counterexample: for the material `mW6` (negative yield stress, which
the parameter type permits) and the zero-initialized state, the evaluation at
`duW6` is plastic (`phi = 4`), and re-evaluating at the state it left is
plastic again (`phi = 2`), so the second evaluation changes the accumulated
plastic strain — evaluation is not idempotent for every parameter/state
combination. -/
theorem C6_counterexample :
    ¬ (J2.apply mW6 (J2.apply mW6 stZero duW6).1 duW6).1.accumulated_plastic_strain
        = (J2.apply mW6 stZero duW6).1.accumulated_plastic_strain := by
  have hG6 : J2.Gmod mW6 = 1 := by
    rw [J2.Gmod]
    show (1 / 2) * mW6.E / (1 + mW6.nu) = 1
    norm_num [mW6]
  have hsymdu : sym duW6 = duW6 := by
    ext i j
    fin_cases i <;> fin_cases j <;>
      simp [sym, duW6, Matrix.transpose_apply, Matrix.vecHead, Matrix.vecTail] <;>
      norm_num
  have htrdu : Matrix.trace duW6 = 0 := by
    simp [duW6, Matrix.trace, Matrix.diag, Fin.sum_univ_three, Matrix.vecHead,
      Matrix.vecTail]
    norm_num
  have hnsdu : normSq duW6 = 3 / 2 := by
    simp [normSq, duW6, Fin.sum_univ_three, Matrix.vecHead, Matrix.vecTail]
    norm_num
  have hS1 : J2.trialS mW6 stZero duW6 = (2 : ℝ) • duW6 := by
    rw [J2.trialS]
    have h0 : sym duW6 - stZero.plastic_strain = duW6 := by
      rw [hsymdu]
      show duW6 - (0 : M3) = duW6
      rw [sub_zero]
    rw [h0, dev, htrdu, hG6]
    simp
  have heta1 : J2.eta mW6 stZero duW6 = (2 : ℝ) • duW6 := by
    rw [J2.eta, hS1]
    show (2 : ℝ) • duW6 - (0 : M3) = (2 : ℝ) • duW6
    rw [sub_zero]
  have htnorm1 : tnorm (J2.eta mW6 stZero duW6) = Real.sqrt 6 := by
    rw [heta1, tnorm, normSq_smul, hnsdu]
    norm_num
  have hphi1 : J2.phi mW6 stZero duW6 = 4 := by
    rw [J2.phi, htnorm1, sqrt32_mul_sqrt6]
    show (3 : ℝ) - (mW6.sigma_y + mW6.Hi * stZero.accumulated_plastic_strain) = 4
    norm_num [mW6, stZero]
  have hpos1 : 0 < J2.phi mW6 stZero duW6 := by
    rw [hphi1]
    norm_num
  have hinc1 : J2.phi mW6 stZero duW6 / (3 * J2.Gmod mW6 + mW6.Hk + mW6.Hi)
      = 4 / 3 := by
    rw [hphi1, hG6]
    norm_num [mW6]
  have htnormalize1 : tnormalize (J2.eta mW6 stZero duW6)
      = (Real.sqrt 6)⁻¹ • ((2 : ℝ) • duW6) := by
    rw [tnormalize, htnorm1, heta1]
  have hst1 : (J2.apply mW6 stZero duW6).1 = J2.State.mk 0 ((4 / 3 : ℝ) • duW6) (4 / 3) := by
    rw [j2_apply_plastic mW6 stZero duW6 hpos1]
    show J2.step1State mW6 stZero duW6 = _
    rw [J2.step1State]
    simp only [J2.State.mk.injEq]
    refine ⟨?_, ?_, ?_⟩
    · show stZero.beta + (Real.sqrt (2 / 3) * mW6.Hk
          * (J2.phi mW6 stZero duW6 / (3 * J2.Gmod mW6 + mW6.Hk + mW6.Hi)))
          • tnormalize (J2.eta mW6 stZero duW6) = 0
      have hHk0 : mW6.Hk = 0 := rfl
      rw [hHk0, mul_zero, zero_mul, zero_smul]
      show (0 : M3) + 0 = 0
      rw [add_zero]
    · rw [hinc1, htnormalize1]
      show (0 : M3) + (Real.sqrt (3 / 2) * (4 / 3))
          • ((Real.sqrt 6)⁻¹ • ((2 : ℝ) • duW6)) = (4 / 3 : ℝ) • duW6
      rw [zero_add, smul_smul, smul_smul]
      congr 1
      rw [show Real.sqrt (3 / 2) * (4 / 3) * (Real.sqrt 6)⁻¹ * 2
          = (8 / 3) * (Real.sqrt (3 / 2) * (Real.sqrt 6)⁻¹) by ring,
        sqrt32_mul_inv_sqrt6]
      norm_num
    · rw [hinc1]
      show (0 : ℝ) + 4 / 3 = 4 / 3
      rw [zero_add]
  have hsub2 : sym duW6
      - (J2.State.mk 0 ((4 / 3 : ℝ) • duW6) (4 / 3)).plastic_strain
      = (-1 / 3 : ℝ) • duW6 := by
    rw [hsymdu]
    show duW6 - (4 / 3 : ℝ) • duW6 = (-1 / 3 : ℝ) • duW6
    rw [show duW6 - (4 / 3 : ℝ) • duW6 = ((1 : ℝ) - 4 / 3) • duW6 by
      rw [sub_smul, one_smul]]
    norm_num
  have hS2c : J2.trialS mW6 (J2.State.mk 0 ((4 / 3 : ℝ) • duW6) (4 / 3)) duW6
      = (-2 / 3 : ℝ) • duW6 := by
    rw [J2.trialS, hsub2, dev, Matrix.trace_smul, htrdu, hG6]
    rw [smul_eq_mul, mul_zero, zero_div, zero_smul, sub_zero, smul_smul]
    norm_num
  have heta2c : J2.eta mW6 (J2.State.mk 0 ((4 / 3 : ℝ) • duW6) (4 / 3)) duW6
      = (-2 / 3 : ℝ) • duW6 := by
    rw [J2.eta, hS2c]
    show (-2 / 3 : ℝ) • duW6 - (0 : M3) = (-2 / 3 : ℝ) • duW6
    rw [sub_zero]
  have htn2c : tnorm (J2.eta mW6 (J2.State.mk 0 ((4 / 3 : ℝ) • duW6) (4 / 3)) duW6)
      = Real.sqrt (2 / 3) := by
    rw [heta2c, tnorm, normSq_smul, hnsdu]
    norm_num
  have hphi2c : J2.phi mW6 (J2.State.mk 0 ((4 / 3 : ℝ) • duW6) (4 / 3)) duW6 = 2 := by
    rw [J2.phi, htn2c, sqrt32_mul_sqrt23]
    show (1 : ℝ) - (mW6.sigma_y + mW6.Hi * (4 / 3)) = 2
    norm_num [mW6]
  have hpos2c : 0 < J2.phi mW6 (J2.State.mk 0 ((4 / 3 : ℝ) • duW6) (4 / 3)) duW6 := by
    rw [hphi2c]
    norm_num
  rw [hst1, j2_apply_plastic mW6 (J2.State.mk 0 ((4 / 3 : ℝ) • duW6) (4 / 3)) duW6 hpos2c]
  show ¬ (4 / 3 : ℝ)
      + J2.phi mW6 (J2.State.mk 0 ((4 / 3 : ℝ) • duW6) (4 / 3)) duW6
        / (3 * J2.Gmod mW6 + mW6.Hk + mW6.Hi) = 4 / 3
  rw [hphi2c, hG6]
  norm_num [mW6]

/-- Witness for the amended C6 at a concrete input: `mW1` with the
zero-initialized state satisfies every hypothesis, so double evaluation at
the zero gradient is idempotent. -/
theorem C6_witness :
    (Matrix.trace stZero.beta = 0 ∧ 0 ≤ stZero.accumulated_plastic_strain ∧
        0 ≤ mW1.sigma_y ∧ 0 ≤ mW1.Hi ∧ 0 ≤ mW1.Hk ∧ 0 < J2.Gmod mW1) ∧
      J2.apply mW1 (J2.apply mW1 stZero 0).1 0 = J2.apply mW1 stZero 0 := by
  have h1 : Matrix.trace stZero.beta = 0 := by simp [stZero]
  have h2 : (0 : ℝ) ≤ stZero.accumulated_plastic_strain := by norm_num [stZero]
  have h3 : (0 : ℝ) ≤ mW1.sigma_y := by norm_num [mW1]
  have h4 : (0 : ℝ) ≤ mW1.Hi := by norm_num [mW1]
  have h5 : (0 : ℝ) ≤ mW1.Hk := by norm_num [mW1]
  have h6 : (0 : ℝ) < J2.Gmod mW1 := by
    rw [J2.Gmod]
    show (0 : ℝ) < (1 / 2) * mW1.E / (1 + mW1.nu)
    norm_num [mW1]
  exact ⟨⟨h1, h2, h3, h4, h5, h6⟩,
    C6_amended_idempotent mW1 stZero 0 h1 h2 h3 h4 h5 h6⟩

end Serac
